import Mathlib

/-!
Verification of a small sphere path tracer (src/vec3.rs, src/ray.rs,
src/material.rs, src/camera.rs, src/main.rs).  The `f64` scalars of the
source are modelled by the real numbers; the `t_max` intersection bound is
modelled by `WithTop ℝ` so that the `f64::INFINITY` upper bound passed by
`ray_color` is representable.  Randomness (the `rand` crate calls) is
modelled by explicit oracle arguments.
-/

namespace RT

/-- Model of `Vec3` from src/vec3.rs: 3-component real vector, used as point,
direction and linear RGB color. -/
structure Vec3 where
  x : ℝ
  y : ℝ
  z : ℝ

/-- Model of `Color` and `Point3` are aliases of `Vec3` in src/vec3.rs. -/
abbrev Color := Vec3

/-- Alias `Point3` of src/vec3.rs. -/
abbrev Point3 := Vec3

/-- Componentwise addition (`impl_op_ex!(+)` in src/vec3.rs). -/
def Vec3.add (a b : Vec3) : Vec3 := ⟨a.x + b.x, a.y + b.y, a.z + b.z⟩

instance : Add Vec3 := ⟨Vec3.add⟩

/-- Componentwise negation (`impl_op_ex!(-)` unary in src/vec3.rs). -/
def Vec3.neg (a : Vec3) : Vec3 := ⟨-a.x, -a.y, -a.z⟩

instance : Neg Vec3 := ⟨Vec3.neg⟩

/-- Subtraction, defined in src/vec3.rs as `a + (-b)`. -/
def Vec3.sub (a b : Vec3) : Vec3 := a + (-b)

instance : Sub Vec3 := ⟨Vec3.sub⟩

/-- Componentwise multiplication (`impl_op_ex!(*)` in src/vec3.rs). -/
def Vec3.mul (a b : Vec3) : Vec3 := ⟨a.x * b.x, a.y * b.y, a.z * b.z⟩

instance : Mul Vec3 := ⟨Vec3.mul⟩

/-- Scalar multiplication (`impl_op_ex_commutative!(*)` with `f64`). -/
def Vec3.smul (t : ℝ) (a : Vec3) : Vec3 := ⟨a.x * t, a.y * t, a.z * t⟩

instance : SMul ℝ Vec3 := ⟨Vec3.smul⟩

/-- Scalar division, defined in src/vec3.rs as `(1.0/t) * a`. -/
noncomputable def Vec3.divs (a : Vec3) (t : ℝ) : Vec3 := (1 / t) • a

/-- Model of `Vec3::dot` from src/vec3.rs. -/
def Vec3.dot (u v : Vec3) : ℝ := u.x * v.x + u.y * v.y + u.z * v.z

/-- Model of `Vec3::cross` from src/vec3.rs. -/
def Vec3.cross (u v : Vec3) : Vec3 :=
  ⟨u.y * v.z - u.z * v.y, u.z * v.x - u.x * v.z, u.x * v.y - u.y * v.x⟩

/-- Model of `Vec3::length_squared` from src/vec3.rs. -/
def Vec3.length_squared (v : Vec3) : ℝ := v.x * v.x + v.y * v.y + v.z * v.z

/-- Model of `Vec3::length` from src/vec3.rs. -/
noncomputable def Vec3.length (v : Vec3) : ℝ := Real.sqrt v.length_squared

/-- Model of `Vec3::unit` from src/vec3.rs: `self / self.length()`. -/
noncomputable def Vec3.unit (v : Vec3) : Vec3 := v.divs v.length

/-- Model of `Vec3::is_near_zero` from src/vec3.rs: all components below `1e-8`
in absolute value. -/
def Vec3.is_near_zero (v : Vec3) : Prop :=
  |v.x| < 1e-8 ∧ |v.y| < 1e-8 ∧ |v.z| < 1e-8

noncomputable instance (v : Vec3) : Decidable v.is_near_zero := by
  unfold Vec3.is_near_zero; infer_instance

/-- Model of `Ray` from src/ray.rs. -/
structure Ray where
  orig : Point3
  dir : Vec3

/-- Model of `Ray::at` from src/ray.rs: `origin + t * direction`. -/
def Ray.at (r : Ray) (t : ℝ) : Point3 := r.orig + t • r.dir

/-- Model of `Face` from src/ray.rs. -/
inductive Face where
  | Front
  | Back
deriving DecidableEq

/-- Model of `Material` from src/material.rs: closed variant set. -/
inductive Material where
  | Lambertian (albedo : Color)
  | Metal (albedo : Color) (fuzz : ℝ)
  | Dielectric (ir : ℝ)

/-- Model of `HitRecord` from src/ray.rs.  The source stores a shared reference to
the material; here the material is stored by value. -/
structure HitRecord where
  p : Point3
  normal : Vec3
  t : ℝ
  face : Face
  mat : Material

/-- Model of `HitRecord::new` from src/ray.rs: orient the outward normal against
the incoming ray and classify the face. -/
noncomputable def HitRecord.new (p : Point3) (outward_normal : Vec3) (t : ℝ)
    (ray : Ray) (mat : Material) : HitRecord :=
  if ray.dir.dot outward_normal > 0 then
    ⟨p, -outward_normal, t, Face.Back, mat⟩
  else
    ⟨p, outward_normal, t, Face.Front, mat⟩

/-- Model of `reflect` from src/material.rs: `v - 2.0 * v.dot(n) * n`. -/
def reflect (v n : Vec3) : Vec3 := v - (2 * v.dot n) • n

/-- Model of `refract` from src/material.rs. -/
noncomputable def refract (uv n : Vec3) (etai_over_etat : ℝ) : Vec3 :=
  let cos_theta := min ((-uv).dot n) 1
  let r_out_perp := etai_over_etat • (uv + cos_theta • n)
  let r_out_parallel := (-Real.sqrt |1 - r_out_perp.length_squared|) • n
  r_out_perp + r_out_parallel

/-- Model of `reflectance` from src/material.rs (Schlick's approximation).  The
source computes `(1.0 - cos).powf(5.0)`, written here as a fifth power. -/
noncomputable def reflectance (cos ref_idx : ℝ) : ℝ :=
  let r0 := (1 - ref_idx) / (1 + ref_idx)
  let r1 := r0 * r0
  r1 + (1 - r1) * (1 - cos) ^ (5 : ℕ)

/-- One bundle of random draws consumed by a single `Material::scatter`
call: `Vec3::random_unit_vector()` (Lambertian), the vector
`Vec3::random_in_unit_sphere()` (Metal fuzz), and the uniform `f64` from
`rand::random()` (Dielectric reflect/refract choice). -/
structure Rand where
  unitVec : Vec3
  inSphere : Vec3
  uniform : ℝ

/-- Model of `Material::scatter` from src/material.rs, with the random draws
supplied explicitly. -/
noncomputable def Material.scatter (m : Material) (ray_in : Ray) (hit : HitRecord)
    (rnd : Rand) : Option (Ray × Color) :=
  match m with
  | Material.Lambertian albedo =>
    let sd := hit.normal + rnd.unitVec
    let scatter_direction := if sd.is_near_zero then hit.normal else sd
    let scattered : Ray := ⟨hit.p, scatter_direction⟩
    some (scattered, albedo)
  | Material.Metal albedo fuzz =>
    let v := ray_in.dir.unit
    let reflected := reflect v hit.normal
    let scattered : Ray := ⟨hit.p, reflected + fuzz • rnd.inSphere⟩
    if scattered.dir.dot hit.normal > 0 then some (scattered, albedo) else none
  | Material.Dielectric ir =>
    let attenuation : Color := ⟨1, 1, 1⟩
    let refraction_ratio := match hit.face with
      | Face.Front => 1 / ir
      | Face.Back => ir
    let unit_direction := ray_in.dir.unit
    let cos_theta := min (-unit_direction.dot hit.normal) 1
    let sin_theta := Real.sqrt (1 - cos_theta * cos_theta)
    let cannot_refract := refraction_ratio * sin_theta > 1
    let dir := if cannot_refract ∨ reflectance cos_theta refraction_ratio > rnd.uniform
      then reflect unit_direction hit.normal
      else refract unit_direction hit.normal refraction_ratio
    let scattered : Ray := ⟨hit.p, dir⟩
    some (scattered, attenuation)

/-- Model of `Sphere` from src/material.rs (radius is signed). -/
structure Sphere where
  center : Point3
  radius : ℝ
  material : Material

/-- Model of `Sphere::hit` (impl Hittable for Sphere, src/material.rs).  The `f64`
bound `tmax` is modelled in `WithTop ℝ` so that `f64::INFINITY` is
representable; `tmin` is always finite in the program. -/
noncomputable def Sphere.hit (s : Sphere) (ray : Ray) (tmin : ℝ) (tmax : WithTop ℝ) :
    Option HitRecord :=
  let oc := ray.orig - s.center
  let a := ray.dir.length_squared
  let half_b := oc.dot ray.dir
  let c := oc.length_squared - s.radius * s.radius
  let discriminant := half_b * half_b - a * c
  if discriminant < 0 then none
  else
    let sqrtd := Real.sqrt discriminant
    let mk : ℝ → HitRecord := fun root =>
      let p := ray.at root
      let outward_normal := (p - s.center).divs s.radius
      HitRecord.new p outward_normal root ray s.material
    let root := (-half_b - sqrtd) / a
    if root < tmin ∨ tmax < (root : WithTop ℝ) then
      let root := (-half_b + sqrtd) / a
      if root < tmin ∨ tmax < (root : WithTop ℝ) then none
      else some (mk root)
    else some (mk root)

/-- The local `discriminant` of `Sphere::hit`. -/
noncomputable def Sphere.disc (s : Sphere) (ray : Ray) : ℝ :=
  let oc := ray.orig - s.center
  let a := ray.dir.length_squared
  let half_b := oc.dot ray.dir
  let c := oc.length_squared - s.radius * s.radius
  half_b * half_b - a * c

/-- The first candidate root `(-half_b - sqrtd) / a` of `Sphere::hit`. -/
noncomputable def Sphere.root1 (s : Sphere) (ray : Ray) : ℝ :=
  (-((ray.orig - s.center).dot ray.dir) - Real.sqrt (s.disc ray)) / ray.dir.length_squared

/-- The second candidate root `(-half_b + sqrtd) / a` of `Sphere::hit`. -/
noncomputable def Sphere.root2 (s : Sphere) (ray : Ray) : ℝ :=
  (-((ray.orig - s.center).dot ray.dir) + Real.sqrt (s.disc ray)) / ray.dir.length_squared

/-- The record built by `Sphere::hit` for an accepted root. -/
noncomputable def Sphere.mkRec (s : Sphere) (ray : Ray) (root : ℝ) : HitRecord :=
  HitRecord.new (ray.at root) ((ray.at root - s.center).divs s.radius) root ray s.material

/-- The loop body of `impl Hittable for Vec<T>` (src/material.rs),
instantiated at `T = Sphere`: `closest` is the running `closest_so_far`
and `hit` the best record seen so far. -/
noncomputable def hitSpheresGo (ray : Ray) (tmin : ℝ) :
    List Sphere → WithTop ℝ → Option HitRecord → Option HitRecord
  | [], _, hit => hit
  | s :: rest, closest, hit =>
    match s.hit ray tmin closest with
    | some obj_hit => hitSpheresGo ray tmin rest (obj_hit.t : WithTop ℝ) (some obj_hit)
    | none => hitSpheresGo ray tmin rest closest hit

/-- Model of `impl Hittable for Vec<T>` (src/material.rs) at `T = Sphere`: linear
scan shrinking `closest_so_far` to the most recent accepted hit.  This is
also `World::hit` of src/main.rs, whose `World` is a vector of spheres. -/
noncomputable def hitSpheres (l : List Sphere) (ray : Ray) (tmin : ℝ)
    (tmax : WithTop ℝ) : Option HitRecord :=
  hitSpheresGo ray tmin l tmax none

/-- Model of `MAX_DEPTH` from src/main.rs. -/
def MAX_DEPTH : ℕ := 3

/-- Model of `ray_color` from src/main.rs, with the per-bounce random draws
supplied by the oracle `rnd` (one `Rand` bundle per recursion depth).
`Color::default()` is the zero vector; the background colors are
`Color::from([1, 1, 0])` and `Color::from([0.5, 0.7, 1.0])`. -/
noncomputable def ray_color (rnd : ℕ → Rand) (world : List Sphere) (ray : Ray)
    (depth : ℕ) : Color :=
  if _h : MAX_DEPTH ≤ depth then ⟨0, 0, 0⟩
  else
    match hitSpheres world ray 0.0001 ⊤ with
    | some hit =>
      match hit.mat.scatter ray hit (rnd depth) with
      | some (scattered, attenuation) =>
        attenuation * ray_color rnd world scattered (depth + 1)
      | none => ⟨0, 0, 0⟩
    | none =>
      let unit_direction := ray.dir.unit
      let t := 0.5 * (unit_direction.y + 1)
      (1 - t) • (⟨1, 1, 0⟩ : Color) + t • (⟨0.5, 0.7, 1.0⟩ : Color)
termination_by MAX_DEPTH - depth
decreasing_by simp_wf; omega

/-- Model of `Camera` from src/camera.rs. -/
structure Camera where
  image_width : ℕ
  image_height : ℕ
  viewport_width : ℝ
  viewport_height : ℝ
  focal_length : ℝ
  origin : Point3
  horizontal : Vec3
  vertical : Vec3
  lower_left_corner : Vec3
  u : Vec3
  v : Vec3
  lens_radius : ℝ

/-- Model of `Camera::new` from src/camera.rs.  `image_height` is
`(image_width as f64 / aspect_ratio).ceil() as usize`; the `as usize`
cast of a non-negative finite `f64` is `Int.toNat` of the ceiling. -/
noncomputable def Camera.new (look_from look_at vup : Vec3) (vfof : ℝ)
    ( aspect_ratio : ℝ) (image_width : ℕ) (focal_length aperture focus_dist : ℝ) :
    Camera :=
  let theta := vfof * Real.pi / 180
  let h := Real.tan (theta / 2)
  let viewport_height := 2 * h
  let viewport_width := viewport_height * aspect_ratio
  let w := (look_from - look_at).unit
  let u := (vup.cross w).unit
  let v := w.cross u
  let origin := look_from
  let horizontal := (focus_dist * viewport_width) • u
  let vertical := (focus_dist * viewport_height) • v
  let lower_left_corner := origin - horizontal.divs 2 - vertical.divs 2 - focus_dist • w
  let lens_radius := aperture / 2
  { image_width := image_width
    image_height := (⌈(image_width : ℝ) / aspect_ratio⌉).toNat
    viewport_width := viewport_width
    viewport_height := viewport_height
    focal_length := focal_length
    origin := origin
    horizontal := horizontal
    vertical := vertical
    lower_left_corner := lower_left_corner
    u := u
    v := v
    lens_radius := lens_radius }

/-- Outcome of `std::sync::mpsc::Sender::send`: it returns `Err(SendError)`
exactly when the receiving half of the channel has been dropped. -/
inductive SendOutcome where
  | ok
  | disconnected
deriving DecidableEq

/-- Model of `mpsc` send semantics as a function of whether the receiver is still
alive. -/
def mpscSend (receiverAlive : Bool) : SendOutcome :=
  if receiverAlive then SendOutcome.ok else SendOutcome.disconnected

/-- How the worker thread of src/main.rs proceeds after one step. -/
inductive WorkerFate where
  | continues
  | panics
  | stopsSilently
deriving DecidableEq

/-- After computing one pixel, `Worker::start` (src/main.rs) executes
`self.result_channel.send(result).unwrap()`: `unwrap` of `Ok` continues
the loop, `unwrap` of `Err(SendError)` panics the thread. -/
def workerAfterSend (receiverAlive : Bool) : WorkerFate :=
  match mpscSend receiverAlive with
  | SendOutcome.ok => WorkerFate.continues
  | SendOutcome.disconnected => WorkerFate.panics

/-- Behaviour of `Worker::start` (src/main.rs) when `recv` on the command channel
reports disconnection: the worker prints a stop message and returns
normally (no panic). -/
def workerAfterCommandDisconnect : WorkerFate := WorkerFate.stopsSilently

/-! ## Basic lemmas about the vector algebra and hit records -/

theorem Vec3.add_def (a b : Vec3) : a + b = ⟨a.x + b.x, a.y + b.y, a.z + b.z⟩ := rfl

theorem Vec3.neg_def (a : Vec3) : -a = ⟨-a.x, -a.y, -a.z⟩ := rfl

theorem Vec3.smul_def (t : ℝ) (a : Vec3) : t • a = ⟨a.x * t, a.y * t, a.z * t⟩ := rfl

theorem Vec3.mul_def (a b : Vec3) : a * b = ⟨a.x * b.x, a.y * b.y, a.z * b.z⟩ := rfl

theorem Vec3.sub_def (a b : Vec3) : a - b = ⟨a.x - b.x, a.y - b.y, a.z - b.z⟩ := by
  show Vec3.add a (Vec3.neg b) = _
  simp only [Vec3.add, Vec3.neg, Vec3.mk.injEq]
  exact ⟨by ring, by ring, by ring⟩

theorem Vec3.dot_neg (u v : Vec3) : u.dot (-v) = -(u.dot v) := by
  show u.dot (Vec3.neg v) = _
  simp only [Vec3.dot, Vec3.neg]
  ring

theorem Vec3.length_squared_nonneg (v : Vec3) : 0 ≤ v.length_squared := by
  have hx := mul_self_nonneg v.x
  have hy := mul_self_nonneg v.y
  have hz := mul_self_nonneg v.z
  unfold Vec3.length_squared
  linarith

theorem HitRecord.new_t (p o : Vec3) (t : ℝ) (ray : Ray) (mat : Material) :
    (HitRecord.new p o t ray mat).t = t := by
  unfold HitRecord.new
  split <;> rfl

theorem HitRecord.new_p (p o : Vec3) (t : ℝ) (ray : Ray) (mat : Material) :
    (HitRecord.new p o t ray mat).p = p := by
  unfold HitRecord.new
  split <;> rfl

/-- The normal stored by `HitRecord::new` always opposes the ray. -/
theorem HitRecord.new_normal_dot_nonpos (p o : Vec3) (t : ℝ) (ray : Ray) (mat : Material) :
    ray.dir.dot (HitRecord.new p o t ray mat).normal ≤ 0 := by
  unfold HitRecord.new
  by_cases h : ray.dir.dot o > 0
  · rw [if_pos h]
    show ray.dir.dot (-o) ≤ 0
    rw [Vec3.dot_neg]
    linarith
  · rw [if_neg h]
    exact le_of_not_lt h

/-- Any record returned by `Sphere::hit` is `HitRecord::new` applied to an
accepted root lying in the queried `t`-range. -/
theorem Sphere.hit_some_shape {s : Sphere} {ray : Ray} {tmin : ℝ} {tmax : WithTop ℝ}
    {h : HitRecord} (hh : s.hit ray tmin tmax = some h) :
    ∃ root : ℝ, tmin ≤ root ∧ (root : WithTop ℝ) ≤ tmax ∧
      h = HitRecord.new (ray.at root) ((ray.at root - s.center).divs s.radius) root ray
        s.material := by
  dsimp only [Sphere.hit] at hh
  split_ifs at hh with h1 h2 h3
  all_goals first
    | exact Option.noConfusion hh
    | (rw [Option.some.injEq] at hh
       simp only [not_or, not_lt] at *
       exact ⟨_, by tauto, by tauto, hh.symm⟩)

/-- Restatement of `Sphere::hit` with the named discriminant, roots, and record
builder; equal by unfolding the definitions. -/
theorem Sphere.hit_eq (s : Sphere) (ray : Ray) (tmin : ℝ) (tmax : WithTop ℝ) :
    s.hit ray tmin tmax =
      if s.disc ray < 0 then none
      else if s.root1 ray < tmin ∨ tmax < (s.root1 ray : WithTop ℝ) then
        if s.root2 ray < tmin ∨ tmax < (s.root2 ray : WithTop ℝ) then none
        else some (s.mkRec ray (s.root2 ray))
      else some (s.mkRec ray (s.root1 ray)) := rfl

theorem Sphere.mkRec_t (s : Sphere) (ray : Ray) (root : ℝ) :
    (s.mkRec ray root).t = root := HitRecord.new_t ..

theorem Sphere.mkRec_p (s : Sphere) (ray : Ray) (root : ℝ) :
    (s.mkRec ray root).p = ray.at root := HitRecord.new_p ..

theorem Sphere.root1_le_root2 (s : Sphere) (ray : Ray) : s.root1 ray ≤ s.root2 ray := by
  unfold Sphere.root1 Sphere.root2
  have ha := Vec3.length_squared_nonneg ray.dir
  have hs := Real.sqrt_nonneg (s.disc ray)
  rcases eq_or_lt_of_le ha with h | h
  · rw [← h, div_zero, div_zero]
  · exact (div_le_div_iff_of_pos_right h).mpr (by linarith)

/-- Shrinking the upper bound of the `t`-range filters the accepted hit:
the hit at a smaller bound `tmax'` is the hit at `tmax` when its `t` still
fits, and nothing otherwise. -/
theorem Sphere.hit_shrink (s : Sphere) (ray : Ray) (tmin : ℝ) {tmax tmax' : WithTop ℝ}
    (hle : tmax' ≤ tmax) :
    s.hit ray tmin tmax' =
      (s.hit ray tmin tmax).bind
        (fun h => if (h.t : WithTop ℝ) ≤ tmax' then some h else none) := by
  rw [Sphere.hit_eq, Sphere.hit_eq]
  have h12 : s.root1 ray ≤ s.root2 ray := s.root1_le_root2 ray
  have h12c : ((s.root1 ray : ℝ) : WithTop ℝ) ≤ (s.root2 ray : WithTop ℝ) :=
    WithTop.coe_le_coe.mpr h12
  by_cases hd : s.disc ray < 0
  · rw [if_pos hd, if_pos hd, Option.none_bind]
  rw [if_neg hd, if_neg hd]
  by_cases hA : s.root1 ray < tmin ∨ tmax' < (s.root1 ray : WithTop ℝ)
  · rw [if_pos hA]
    by_cases hB : s.root1 ray < tmin ∨ tmax < (s.root1 ray : WithTop ℝ)
    · rw [if_pos hB]
      by_cases hC : s.root2 ray < tmin ∨ tmax' < (s.root2 ray : WithTop ℝ)
      · rw [if_pos hC]
        by_cases hD : s.root2 ray < tmin ∨ tmax < (s.root2 ray : WithTop ℝ)
        · rw [if_pos hD, Option.none_bind]
        · rw [if_neg hD, Option.some_bind, Sphere.mkRec_t]
          push_neg at hD
          rcases hC with hC | hC
          · exact absurd hC (not_lt.mpr hD.1)
          · rw [if_neg (not_le.mpr hC)]
      · rw [if_neg hC]
        push_neg at hC
        have hD : ¬(s.root2 ray < tmin ∨ tmax < (s.root2 ray : WithTop ℝ)) := by
          push_neg
          exact ⟨hC.1, le_trans hC.2 hle⟩
        rw [if_neg hD, Option.some_bind, Sphere.mkRec_t, if_pos hC.2]
    · -- original accepts root1, shrunk rejected it
      rw [if_neg hB, Option.some_bind, Sphere.mkRec_t]
      push_neg at hB
      rcases hA with hA | hA
      · exact absurd hA (not_lt.mpr hB.1)
      · rw [if_neg (not_le.mpr hA)]
        have hC : s.root2 ray < tmin ∨ tmax' < (s.root2 ray : WithTop ℝ) :=
          Or.inr (lt_of_lt_of_le hA h12c)
        rw [if_pos hC]
  · rw [if_neg hA]
    push_neg at hA
    have hB : ¬(s.root1 ray < tmin ∨ tmax < (s.root1 ray : WithTop ℝ)) := by
      push_neg
      exact ⟨hA.1, le_trans hA.2 hle⟩
    rw [if_neg hB, Option.some_bind, Sphere.mkRec_t, if_pos hA.2]

/-- Any accepted sphere hit lies in the queried range and on the ray. -/
theorem Sphere.hit_mem_range {s : Sphere} {ray : Ray} {tmin : ℝ} {tmax : WithTop ℝ}
    {h : HitRecord} (hh : s.hit ray tmin tmax = some h) :
    tmin ≤ h.t ∧ (h.t : WithTop ℝ) ≤ tmax ∧ h.p = ray.at h.t := by
  obtain ⟨root, hr1, hr2, rfl⟩ := Sphere.hit_some_shape hh
  rw [HitRecord.new_t, HitRecord.new_p]
  exact ⟨hr1, hr2, rfl⟩

/-- Growing the upper bound preserves an accepted hit. -/
theorem Sphere.hit_of_hit_le {s : Sphere} {ray : Ray} {tmin : ℝ} {tmax tmax' : WithTop ℝ}
    (hle : tmax' ≤ tmax) {h : HitRecord} (hh : s.hit ray tmin tmax' = some h) :
    s.hit ray tmin tmax = some h := by
  rw [Sphere.hit_shrink s ray tmin hle] at hh
  rcases hT : s.hit ray tmin tmax with _ | h0 <;> rw [hT] at hh
  · exact Option.noConfusion hh
  · simp only [Option.some_bind] at hh
    split_ifs at hh
    rw [Option.some.injEq] at hh
    rw [hh]

/-- Shrinking the upper bound preserves a miss. -/
theorem Sphere.hit_none_shrink {s : Sphere} {ray : Ray} {tmin : ℝ} {tmax tmax' : WithTop ℝ}
    (hle : tmax' ≤ tmax) (hn : s.hit ray tmin tmax = none) :
    s.hit ray tmin tmax' = none := by
  rw [Sphere.hit_shrink s ray tmin hle, hn, Option.none_bind]

/-- A sphere that hits within `tmax` but misses within a smaller bound
`tmax'` has its hit parameter above `tmax'`. -/
theorem Sphere.lt_of_hit_none {s : Sphere} {ray : Ray} {tmin : ℝ} {tmax tmax' : WithTop ℝ}
    (hle : tmax' ≤ tmax) {h : HitRecord} (hh : s.hit ray tmin tmax = some h)
    (hn : s.hit ray tmin tmax' = none) : tmax' < (h.t : WithTop ℝ) := by
  by_contra hc
  rw [not_lt] at hc
  rw [Sphere.hit_shrink s ray tmin hle, hh, Option.some_bind, if_pos hc] at hn
  exact Option.noConfusion hn

/-- Full behaviour of the `Vec<T>` scan loop: relative to the original
`tmax`, the accumulator invariant propagates, a `none` result means every
scanned sphere misses, and a `some` result is an accepted hit of minimal
`t` among all scanned spheres' accepted hits. -/
theorem hitSpheresGo_spec (ray : Ray) (tmin : ℝ) (tmax : WithTop ℝ)
    (rest : List Sphere) :
    ∀ (closest : WithTop ℝ) (acc : Option HitRecord),
      closest ≤ tmax →
      (acc = none → closest = tmax) →
      (∀ a, acc = some a → (a.t : WithTop ℝ) = closest) →
      ((hitSpheresGo ray tmin rest closest acc = none →
          acc = none ∧ ∀ s ∈ rest, s.hit ray tmin tmax = none) ∧
       ((acc = none ∧ ∀ s ∈ rest, s.hit ray tmin tmax = none) →
          hitSpheresGo ray tmin rest closest acc = none) ∧
       (∀ h, hitSpheresGo ray tmin rest closest acc = some h →
          (acc = some h ∨ ∃ s ∈ rest, s.hit ray tmin tmax = some h) ∧
          (∀ a, acc = some a → h.t ≤ a.t) ∧
          (∀ s ∈ rest, ∀ h', s.hit ray tmin tmax = some h' → h.t ≤ h'.t))) := by
  induction rest with
  | nil =>
    intro closest acc hc hnone hsome
    refine ⟨fun hres => ⟨hres, by simp⟩, fun hres => hres.1, fun h hres => ?_⟩
    have hres' : acc = some h := hres
    refine ⟨Or.inl hres', fun a ha => ?_, by simp⟩
    rw [hres', Option.some.injEq] at ha
    rw [ha]
  | cons s rest ih =>
    intro closest acc hc hnone hsome
    rcases hsh : s.hit ray tmin closest with _ | obj
    · -- the sphere misses at the current bound
      have hgo : hitSpheresGo ray tmin (s :: rest) closest acc =
          hitSpheresGo ray tmin rest closest acc := by
        dsimp only [hitSpheresGo]
        rw [hsh]
      obtain ⟨ih1, ih2, ih3⟩ := ih closest acc hc hnone hsome
      refine ⟨?_, ?_, ?_⟩
      · intro hres
        rw [hgo] at hres
        obtain ⟨hacc, hmiss⟩ := ih1 hres
        refine ⟨hacc, fun s' hs' => ?_⟩
        rcases List.mem_cons.mp hs' with rfl | hs'
        · rw [← hnone hacc]
          exact hsh
        · exact hmiss s' hs'
      · intro ⟨hacc, hmiss⟩
        rw [hgo]
        exact ih2 ⟨hacc, fun s' hs' => hmiss s' (List.mem_cons_of_mem s hs')⟩
      · intro h hres
        rw [hgo] at hres
        obtain ⟨hex, haccmin, hmin⟩ := ih3 h hres
        refine ⟨?_, haccmin, ?_⟩
        · rcases hex with hex | ⟨s', hs', hhit⟩
          · exact Or.inl hex
          · exact Or.inr ⟨s', List.mem_cons_of_mem s hs', hhit⟩
        · intro s' hs' h' hh'
          rcases List.mem_cons.mp hs' with rfl | hs'
          · -- this sphere missed at `closest` but hits at `tmax`
            have hlt : closest < (h'.t : WithTop ℝ) := Sphere.lt_of_hit_none hc hh' hsh
            rcases hax : acc with _ | a
            · rw [hnone hax] at hlt
              exact absurd (Sphere.hit_mem_range hh').2.1 (not_le.mpr hlt)
            · have h1 : h.t ≤ a.t := haccmin a hax
              have h2 : (a.t : WithTop ℝ) = closest := hsome a hax
              have : (h.t : WithTop ℝ) < (h'.t : WithTop ℝ) :=
                lt_of_le_of_lt (le_trans (WithTop.coe_le_coe.mpr h1) h2.le) hlt
              exact (WithTop.coe_lt_coe.mp this).le
          · exact hmin s' hs' h' hh'
    · -- the sphere hits at the current bound
      have hgo : hitSpheresGo ray tmin (s :: rest) closest acc =
          hitSpheresGo ray tmin rest (obj.t : WithTop ℝ) (some obj) := by
        dsimp only [hitSpheresGo]
        rw [hsh]
      have hobj_le : (obj.t : WithTop ℝ) ≤ closest := (Sphere.hit_mem_range hsh).2.1
      have hT : s.hit ray tmin tmax = some obj := Sphere.hit_of_hit_le hc hsh
      obtain ⟨ih1, ih2, ih3⟩ := ih (obj.t : WithTop ℝ) (some obj) (le_trans hobj_le hc)
        (fun hx => Option.noConfusion hx)
        (fun a ha => by rw [Option.some.injEq] at ha; rw [ha])
      refine ⟨?_, ?_, ?_⟩
      · intro hres
        rw [hgo] at hres
        exact absurd (ih1 hres).1 (by simp)
      · intro ⟨_, hmiss⟩
        exact absurd hT (by rw [hmiss s (List.mem_cons_self s rest)]; simp)
      · intro h hres
        rw [hgo] at hres
        obtain ⟨hex, haccmin, hmin⟩ := ih3 h hres
        have hht_obj : h.t ≤ obj.t := haccmin obj rfl
        refine ⟨?_, ?_, ?_⟩
        · rcases hex with hex | ⟨s', hs', hhit⟩
          · rw [Option.some.injEq] at hex
            exact Or.inr ⟨s, List.mem_cons_self s rest, by rw [← hex]; exact hT⟩
          · exact Or.inr ⟨s', List.mem_cons_of_mem s hs', hhit⟩
        · intro a hax
          have h2 : (a.t : WithTop ℝ) = closest := hsome a hax
          have : (obj.t : WithTop ℝ) ≤ (a.t : WithTop ℝ) := by rw [h2]; exact hobj_le
          exact le_trans hht_obj (WithTop.coe_le_coe.mp this)
        · intro s' hs' h' hh'
          rcases List.mem_cons.mp hs' with rfl | hs'
          · rw [hT, Option.some.injEq] at hh'
            rw [← hh']
            exact hht_obj
          · exact hmin s' hs' h' hh'

/-! ## Claim theorems -/

/-- C4: for every ray and every hit accepted by `Sphere::hit` (for any
sign of the sphere's radius), the stored normal of the resulting
`HitRecord` satisfies `ray.direction · hit.normal ≤ 0`: the effective
surface normal handed to materials always opposes the incoming ray. -/
theorem C4_normal_opposes_ray (s : Sphere) (ray : Ray) (tmin : ℝ) (tmax : WithTop ℝ)
    (h : HitRecord) (hh : s.hit ray tmin tmax = some h) :
    ray.dir.dot h.normal ≤ 0 := by
  obtain ⟨root, _, _, rfl⟩ := Sphere.hit_some_shape hh
  exact HitRecord.new_normal_dot_nonpos ..

/-- C5: for every ray, `t`-range and ordered list of spheres, the
collection intersection returns `none` exactly when no sphere has an
accepted hit in the range, and otherwise returns a record that is an
accepted hit of one of the spheres whose `t` is minimal among all
spheres' accepted hits in the range. -/
theorem C5_collection_nearest_hit (l : List Sphere) (ray : Ray) (tmin : ℝ)
    (tmax : WithTop ℝ) :
    (hitSpheres l ray tmin tmax = none ↔ ∀ s ∈ l, s.hit ray tmin tmax = none) ∧
    (∀ h, hitSpheres l ray tmin tmax = some h →
      (∃ s ∈ l, s.hit ray tmin tmax = some h) ∧
      (∀ s ∈ l, ∀ h', s.hit ray tmin tmax = some h' → h.t ≤ h'.t)) := by
  obtain ⟨g1, g2, g3⟩ := hitSpheresGo_spec ray tmin tmax l tmax none le_rfl
    (fun _ => rfl) (fun a ha => Option.noConfusion ha)
  unfold hitSpheres
  refine ⟨⟨fun hres => (g1 hres).2, fun hmiss => g2 ⟨rfl, hmiss⟩⟩, fun h hres => ?_⟩
  obtain ⟨hex, _, hmin⟩ := g3 h hres
  rcases hex with hex | hex
  · exact absurd hex (by simp)
  · exact ⟨hex, hmin⟩

/-- C10: whenever `Sphere::hit` (and likewise the collection hit) returns
a record, the record's `t` lies in the queried range and its point is the
ray evaluated at that `t`. -/
theorem C10_hit_in_range_on_ray :
    (∀ (s : Sphere) (ray : Ray) (tmin : ℝ) (tmax : WithTop ℝ) (h : HitRecord),
      s.hit ray tmin tmax = some h →
      tmin ≤ h.t ∧ (h.t : WithTop ℝ) ≤ tmax ∧ h.p = ray.at h.t) ∧
    (∀ (l : List Sphere) (ray : Ray) (tmin : ℝ) (tmax : WithTop ℝ) (h : HitRecord),
      hitSpheres l ray tmin tmax = some h →
      tmin ≤ h.t ∧ (h.t : WithTop ℝ) ≤ tmax ∧ h.p = ray.at h.t) := by
  refine ⟨fun s ray tmin tmax h hh => Sphere.hit_mem_range hh,
    fun l ray tmin tmax h hh => ?_⟩
  obtain ⟨_, _, g3⟩ := hitSpheresGo_spec ray tmin tmax l tmax none le_rfl
    (fun _ => rfl) (fun a ha => Option.noConfusion ha)
  obtain ⟨hex, _, _⟩ := g3 h hh
  rcases hex with hex | ⟨s, _, hhit⟩
  · exact absurd hex (by simp)
  · exact Sphere.hit_mem_range hhit

/-! ## Concrete evaluations -/

/-- The ray `(0,0,0) → (0,0,-1)` against the solid sphere of radius `0.5`
centered at `(0,0,-1)`: full evaluation of `Sphere::hit`. -/
theorem hit_unit_eval (mat : Material) (tmin : ℝ) (tmax : WithTop ℝ)
    (h1 : tmin ≤ 0.5) (h2 : ((0.5 : ℝ) : WithTop ℝ) ≤ tmax) :
    Sphere.hit ⟨⟨0, 0, -1⟩, 0.5, mat⟩ ⟨⟨0, 0, 0⟩, ⟨0, 0, -1⟩⟩ tmin tmax =
      some ⟨⟨0, 0, -0.5⟩, ⟨0, 0, 1⟩, 0.5, Face.Front, mat⟩ := by
  have hdisc : Sphere.disc ⟨⟨0, 0, -1⟩, 0.5, mat⟩ ⟨⟨0, 0, 0⟩, ⟨0, 0, -1⟩⟩ = 1 / 4 := by
    simp only [Sphere.disc, Vec3.sub_def, Vec3.dot, Vec3.length_squared]
    norm_num
  have hroot1 : Sphere.root1 ⟨⟨0, 0, -1⟩, 0.5, mat⟩ ⟨⟨0, 0, 0⟩, ⟨0, 0, -1⟩⟩ = 0.5 := by
    rw [Sphere.root1, hdisc]
    rw [show Real.sqrt (1 / 4) = 1 / 2 by
      rw [show (1 / 4 : ℝ) = (1 / 2) ^ 2 by norm_num]
      exact Real.sqrt_sq (by norm_num)]
    simp only [Vec3.sub_def, Vec3.dot, Vec3.length_squared]
    norm_num
  have hmk : Sphere.mkRec ⟨⟨0, 0, -1⟩, 0.5, mat⟩ ⟨⟨0, 0, 0⟩, ⟨0, 0, -1⟩⟩ 0.5 =
      ⟨⟨0, 0, -0.5⟩, ⟨0, 0, 1⟩, 0.5, Face.Front, mat⟩ := by
    unfold Sphere.mkRec
    have hp : Ray.at ⟨⟨0, 0, 0⟩, ⟨0, 0, -1⟩⟩ 0.5 = ⟨0, 0, -0.5⟩ := by
      simp only [Ray.at, Vec3.smul_def, Vec3.add_def]
      norm_num [Vec3.mk.injEq]
    rw [hp]
    have ho : Vec3.divs ((⟨0, 0, -0.5⟩ : Vec3) - ⟨0, 0, -1⟩) 0.5 = ⟨0, 0, 1⟩ := by
      simp only [Vec3.sub_def, Vec3.divs, Vec3.smul_def]
      norm_num [Vec3.mk.injEq]
    rw [ho]
    unfold HitRecord.new
    rw [if_neg (by simp only [Vec3.dot]; norm_num)]
  rw [Sphere.hit_eq]
  rw [if_neg (by rw [hdisc]; norm_num)]
  rw [if_neg (by
    rw [hroot1]
    push_neg
    exact ⟨not_lt.mp (not_lt.mpr h1), h2⟩)]
  rw [hroot1, hmk]

/-- The same ray against the hollow sphere of radius `-0.5` at the same
center: same root, outward normal flipped to `(0,0,-1)`, so
`HitRecord::new` stores `(0,0,1)` and face `Back`. -/
theorem hit_hollow_eval (mat : Material) (tmin : ℝ) (tmax : WithTop ℝ)
    (h1 : tmin ≤ 0.5) (h2 : ((0.5 : ℝ) : WithTop ℝ) ≤ tmax) :
    Sphere.hit ⟨⟨0, 0, -1⟩, -0.5, mat⟩ ⟨⟨0, 0, 0⟩, ⟨0, 0, -1⟩⟩ tmin tmax =
      some ⟨⟨0, 0, -0.5⟩, ⟨0, 0, 1⟩, 0.5, Face.Back, mat⟩ := by
  have hdisc : Sphere.disc ⟨⟨0, 0, -1⟩, -0.5, mat⟩ ⟨⟨0, 0, 0⟩, ⟨0, 0, -1⟩⟩ = 1 / 4 := by
    simp only [Sphere.disc, Vec3.sub_def, Vec3.dot, Vec3.length_squared]
    norm_num
  have hroot1 : Sphere.root1 ⟨⟨0, 0, -1⟩, -0.5, mat⟩ ⟨⟨0, 0, 0⟩, ⟨0, 0, -1⟩⟩ = 0.5 := by
    rw [Sphere.root1, hdisc]
    rw [show Real.sqrt (1 / 4) = 1 / 2 by
      rw [show (1 / 4 : ℝ) = (1 / 2) ^ 2 by norm_num]
      exact Real.sqrt_sq (by norm_num)]
    simp only [Vec3.sub_def, Vec3.dot, Vec3.length_squared]
    norm_num
  have hmk : Sphere.mkRec ⟨⟨0, 0, -1⟩, -0.5, mat⟩ ⟨⟨0, 0, 0⟩, ⟨0, 0, -1⟩⟩ 0.5 =
      ⟨⟨0, 0, -0.5⟩, ⟨0, 0, 1⟩, 0.5, Face.Back, mat⟩ := by
    unfold Sphere.mkRec
    have hp : Ray.at ⟨⟨0, 0, 0⟩, ⟨0, 0, -1⟩⟩ 0.5 = ⟨0, 0, -0.5⟩ := by
      simp only [Ray.at, Vec3.smul_def, Vec3.add_def]
      norm_num [Vec3.mk.injEq]
    rw [hp]
    have ho : Vec3.divs ((⟨0, 0, -0.5⟩ : Vec3) - ⟨0, 0, -1⟩) (-0.5) = ⟨0, 0, -1⟩ := by
      simp only [Vec3.sub_def, Vec3.divs, Vec3.smul_def]
      norm_num [Vec3.mk.injEq]
    rw [ho]
    unfold HitRecord.new
    rw [if_pos (by simp only [Vec3.dot]; norm_num)]
    norm_num [Vec3.neg_def, Vec3.mk.injEq, HitRecord.mk.injEq]
  rw [Sphere.hit_eq]
  rw [if_neg (by rw [hdisc]; norm_num)]
  rw [if_neg (by
    rw [hroot1]
    push_neg
    exact ⟨not_lt.mp (not_lt.mpr h1), h2⟩)]
  rw [hroot1, hmk]

/-- The same ray against the degenerate sphere of radius `0` at the same
center: the discriminant is exactly `0`, the root `t = 1` is accepted,
and the hit point is the sphere's center (the outward normal divides the
zero vector by the zero radius, yielding the zero vector here). -/
theorem hit_point_eval (mat : Material) (tmin : ℝ) (tmax : WithTop ℝ)
    (h1 : tmin ≤ 1) (h2 : ((1 : ℝ) : WithTop ℝ) ≤ tmax) :
    Sphere.hit ⟨⟨0, 0, -1⟩, 0, mat⟩ ⟨⟨0, 0, 0⟩, ⟨0, 0, -1⟩⟩ tmin tmax =
      some ⟨⟨0, 0, -1⟩, ⟨0, 0, 0⟩, 1, Face.Front, mat⟩ := by
  have hdisc : Sphere.disc ⟨⟨0, 0, -1⟩, 0, mat⟩ ⟨⟨0, 0, 0⟩, ⟨0, 0, -1⟩⟩ = 0 := by
    simp only [Sphere.disc, Vec3.sub_def, Vec3.dot, Vec3.length_squared]
    norm_num
  have hroot1 : Sphere.root1 ⟨⟨0, 0, -1⟩, 0, mat⟩ ⟨⟨0, 0, 0⟩, ⟨0, 0, -1⟩⟩ = 1 := by
    rw [Sphere.root1, hdisc, Real.sqrt_zero]
    simp only [Vec3.sub_def, Vec3.dot, Vec3.length_squared]
    norm_num
  have hmk : Sphere.mkRec ⟨⟨0, 0, -1⟩, 0, mat⟩ ⟨⟨0, 0, 0⟩, ⟨0, 0, -1⟩⟩ 1 =
      ⟨⟨0, 0, -1⟩, ⟨0, 0, 0⟩, 1, Face.Front, mat⟩ := by
    unfold Sphere.mkRec
    have hp : Ray.at ⟨⟨0, 0, 0⟩, ⟨0, 0, -1⟩⟩ 1 = ⟨0, 0, -1⟩ := by
      simp only [Ray.at, Vec3.smul_def, Vec3.add_def]
      norm_num [Vec3.mk.injEq]
    rw [hp]
    have ho : Vec3.divs ((⟨0, 0, -1⟩ : Vec3) - ⟨0, 0, -1⟩) 0 = ⟨0, 0, 0⟩ := by
      simp only [Vec3.sub_def, Vec3.divs, Vec3.smul_def]
      norm_num [Vec3.mk.injEq]
    rw [ho]
    unfold HitRecord.new
    rw [if_neg (by simp only [Vec3.dot]; norm_num)]
  rw [Sphere.hit_eq]
  rw [if_neg (by rw [hdisc]; norm_num)]
  rw [if_neg (by
    rw [hroot1]
    push_neg
    exact ⟨not_lt.mp (not_lt.mpr h1), h2⟩)]
  rw [hroot1, hmk]

/-- Scan of the one-sphere world for the unit test ray. -/
theorem hitSpheres_unit_eval :
    hitSpheres [⟨⟨0, 0, -1⟩, 0.5, Material.Lambertian ⟨0, 0, 0⟩⟩]
      ⟨⟨0, 0, 0⟩, ⟨0, 0, -1⟩⟩ 0 1 =
      some ⟨⟨0, 0, -0.5⟩, ⟨0, 0, 1⟩, 0.5, Face.Front, Material.Lambertian ⟨0, 0, 0⟩⟩ := by
  unfold hitSpheres
  dsimp only [hitSpheresGo]
  rw [hit_unit_eval (Material.Lambertian ⟨0, 0, 0⟩) 0 1 (by norm_num)
    (by exact_mod_cast (by norm_num : (0.5 : ℝ) ≤ 1))]

/-- C6: the ray with origin `(0,0,0)` and direction `(0,0,-1)` against
the sphere centered at `(0,0,-1)` with radius `0.5`, for any range with
`tmin < 0.5 < tmax`, hits at `t = 0.5`, point `(0,0,-0.5)`, normal
`(0,0,1)`, face `Front`. -/
theorem C6_concrete_front_hit (mat : Material) (tmin : ℝ) (tmax : WithTop ℝ)
    (h1 : tmin < 0.5) (h2 : ((0.5 : ℝ) : WithTop ℝ) < tmax) :
    Sphere.hit ⟨⟨0, 0, -1⟩, 0.5, mat⟩ ⟨⟨0, 0, 0⟩, ⟨0, 0, -1⟩⟩ tmin tmax =
      some ⟨⟨0, 0, -0.5⟩, ⟨0, 0, 1⟩, 0.5, Face.Front, mat⟩ :=
  hit_unit_eval mat tmin tmax h1.le h2.le

/-- Witness for C6 at `mat` Lambertian black, `tmin = 0`, `tmax = 1`. -/
theorem C6_concrete_front_hit_witness :
    Sphere.hit ⟨⟨0, 0, -1⟩, 0.5, Material.Lambertian ⟨0, 0, 0⟩⟩
      ⟨⟨0, 0, 0⟩, ⟨0, 0, -1⟩⟩ 0 1 =
      some ⟨⟨0, 0, -0.5⟩, ⟨0, 0, 1⟩, 0.5, Face.Front, Material.Lambertian ⟨0, 0, 0⟩⟩ :=
  C6_concrete_front_hit (Material.Lambertian ⟨0, 0, 0⟩) 0 1 (by norm_num)
    (by exact_mod_cast (by norm_num : (0.5 : ℝ) < 1))

/-- C3 counterexample: against the hollow sphere (radius `-0.5`) the
resulting `HitRecord`'s stored normal is `(0,0,1)` — not `(0,0,-1)` as
claimed — because `HitRecord::new` sees the ray hitting from inside
(outward normal `(0,0,-1)`), negates it and classifies the face `Back`. -/
theorem C3_hollow_counterexample :
    Sphere.hit ⟨⟨0, 0, -1⟩, -0.5, Material.Lambertian ⟨0, 0, 0⟩⟩
        ⟨⟨0, 0, 0⟩, ⟨0, 0, -1⟩⟩ 0 1 =
      some ⟨⟨0, 0, -0.5⟩, ⟨0, 0, 1⟩, 0.5, Face.Back, Material.Lambertian ⟨0, 0, 0⟩⟩ ∧
    (⟨0, 0, 1⟩ : Vec3) ≠ ⟨0, 0, -1⟩ :=
  ⟨hit_hollow_eval (Material.Lambertian ⟨0, 0, 0⟩) 0 1 (by norm_num)
      (by exact_mod_cast (by norm_num : (0.5 : ℝ) ≤ 1)),
    by norm_num [Vec3.mk.injEq]⟩

/-- C3 amended: same `t = 0.5` and point `(0,0,-0.5)` as the radius `0.5`
case; the outward normal is `(0,0,-1)` (flipped), so the face is
reclassified to `Back` and the stored normal is `(0,0,1)`. -/
theorem C3_hollow_hit (mat : Material) (tmin : ℝ) (tmax : WithTop ℝ)
    (h1 : tmin < 0.5) (h2 : ((0.5 : ℝ) : WithTop ℝ) < tmax) :
    Sphere.hit ⟨⟨0, 0, -1⟩, -0.5, mat⟩ ⟨⟨0, 0, 0⟩, ⟨0, 0, -1⟩⟩ tmin tmax =
      some ⟨⟨0, 0, -0.5⟩, ⟨0, 0, 1⟩, 0.5, Face.Back, mat⟩ :=
  hit_hollow_eval mat tmin tmax h1.le h2.le

/-- Witness for the amended C3 at `mat` Metal, `tmin = 0`, `tmax = 2`. -/
theorem C3_hollow_hit_witness :
    Sphere.hit ⟨⟨0, 0, -1⟩, -0.5, Material.Metal ⟨1, 1, 1⟩ 0⟩
      ⟨⟨0, 0, 0⟩, ⟨0, 0, -1⟩⟩ 0 ((2 : ℝ) : WithTop ℝ) =
      some ⟨⟨0, 0, -0.5⟩, ⟨0, 0, 1⟩, 0.5, Face.Back, Material.Metal ⟨1, 1, 1⟩ 0⟩ :=
  C3_hollow_hit (Material.Metal ⟨1, 1, 1⟩ 0) 0 ((2 : ℝ) : WithTop ℝ) (by norm_num)
    (by exact_mod_cast (by norm_num : (0.5 : ℝ) < 2))

/-- Witness for C4 at the concrete front hit: the stored normal `(0,0,1)`
of the accepted record opposes the incoming direction `(0,0,-1)`. -/
theorem C4_normal_opposes_ray_witness :
    Vec3.dot (⟨0, 0, -1⟩ : Vec3)
      (HitRecord.mk ⟨0, 0, -0.5⟩ ⟨0, 0, 1⟩ 0.5 Face.Front
        (Material.Lambertian ⟨0, 0, 0⟩)).normal ≤ 0 :=
  C4_normal_opposes_ray ⟨⟨0, 0, -1⟩, 0.5, Material.Lambertian ⟨0, 0, 0⟩⟩
    ⟨⟨0, 0, 0⟩, ⟨0, 0, -1⟩⟩ 0 1 _
    (hit_unit_eval (Material.Lambertian ⟨0, 0, 0⟩) 0 1 (by norm_num)
      (by exact_mod_cast (by norm_num : (0.5 : ℝ) ≤ 1)))

/-- Witness for C5 on the one-sphere world: the scan's record is an
accepted hit of a listed sphere and is minimal among accepted hits. -/
theorem C5_collection_nearest_hit_witness :
    (∃ s ∈ [(⟨⟨0, 0, -1⟩, 0.5, Material.Lambertian ⟨0, 0, 0⟩⟩ : Sphere)],
      Sphere.hit s ⟨⟨0, 0, 0⟩, ⟨0, 0, -1⟩⟩ 0 1 =
        some ⟨⟨0, 0, -0.5⟩, ⟨0, 0, 1⟩, 0.5, Face.Front, Material.Lambertian ⟨0, 0, 0⟩⟩) ∧
    (∀ s ∈ [(⟨⟨0, 0, -1⟩, 0.5, Material.Lambertian ⟨0, 0, 0⟩⟩ : Sphere)], ∀ h',
      Sphere.hit s ⟨⟨0, 0, 0⟩, ⟨0, 0, -1⟩⟩ 0 1 = some h' →
      (HitRecord.mk ⟨0, 0, -0.5⟩ ⟨0, 0, 1⟩ 0.5 Face.Front
        (Material.Lambertian ⟨0, 0, 0⟩)).t ≤ h'.t) :=
  (C5_collection_nearest_hit [⟨⟨0, 0, -1⟩, 0.5, Material.Lambertian ⟨0, 0, 0⟩⟩]
    ⟨⟨0, 0, 0⟩, ⟨0, 0, -1⟩⟩ 0 1).2 _ hitSpheres_unit_eval

/-- Witness for C10 at the concrete front hit: `t = 0.5` lies in `[0,1]`
and the point is the ray at `0.5`. -/
theorem C10_hit_in_range_on_ray_witness :
    (0 : ℝ) ≤ (0.5 : ℝ) ∧ ((0.5 : ℝ) : WithTop ℝ) ≤ 1 ∧
      (⟨0, 0, -0.5⟩ : Vec3) = Ray.at ⟨⟨0, 0, 0⟩, ⟨0, 0, -1⟩⟩ 0.5 :=
  C10_hit_in_range_on_ray.1 ⟨⟨0, 0, -1⟩, 0.5, Material.Lambertian ⟨0, 0, 0⟩⟩
    ⟨⟨0, 0, 0⟩, ⟨0, 0, -1⟩⟩ 0 1 _
    (hit_unit_eval (Material.Lambertian ⟨0, 0, 0⟩) 0 1 (by norm_num)
      (by exact_mod_cast (by norm_num : (0.5 : ℝ) ≤ 1)))

/-- C7: `scatter` on a `Dielectric` material always returns `Some` (it
never absorbs the ray), and the returned attenuation is always white
`(1,1,1)` — for every incoming ray, hit record and random draw. -/
theorem C7_dielectric_always_scatters (ir : ℝ) (ray_in : Ray) (hit : HitRecord)
    (rnd : Rand) :
    ∃ scattered : Ray,
      Material.scatter (Material.Dielectric ir) ray_in hit rnd =
        some (scattered, (⟨1, 1, 1⟩ : Color)) :=
  ⟨_, rfl⟩

/-- Evaluation of `ray_color` on a ray that hits nothing: one unfolding step of the
recursion, landing in the background-gradient branch. -/
theorem ray_color_miss (rnd : ℕ → Rand) (world : List Sphere) (ray : Ray) (depth : ℕ)
    (hdepth : depth < MAX_DEPTH)
    (hmiss : hitSpheres world ray 0.0001 ⊤ = none) :
    ray_color rnd world ray depth =
      (1 - 0.5 * (ray.dir.unit.y + 1)) • (⟨1, 1, 0⟩ : Color) +
        (0.5 * (ray.dir.unit.y + 1)) • (⟨0.5, 0.7, 1.0⟩ : Color) := by
  rw [ray_color]
  rw [dif_neg (not_le.mpr hdepth), hmiss]

/-- C2 (amended): for every ray missing every object in the world (and
depth below the bound), `ray_color` returns the vertical linear
interpolation between yellow `(1,1,0)` and sky-blue `(0.5,0.7,1.0)` with
`t = 0.5*(y+1)`, `y` the normalized direction's second component. -/
theorem C2_miss_background (rnd : ℕ → Rand) (world : List Sphere) (ray : Ray) (depth : ℕ)
    (hdepth : depth < MAX_DEPTH)
    (hmiss : hitSpheres world ray 0.0001 ⊤ = none) :
    ray_color rnd world ray depth =
      (1 - 0.5 * (ray.dir.unit.y + 1)) • (⟨1, 1, 0⟩ : Color) +
        (0.5 * (ray.dir.unit.y + 1)) • (⟨0.5, 0.7, 1.0⟩ : Color) :=
  ray_color_miss rnd world ray depth hdepth hmiss

/-- C2 counterexample: the downward ray in the empty world yields the
background color `(1,1,0)` (yellow), not white `(1,1,1)`: the code's
first interpolation endpoint is `Color::from([1, 1, 0])`. -/
theorem C2_background_not_white :
    ray_color (fun _ => ⟨⟨0, 0, 0⟩, ⟨0, 0, 0⟩, 0⟩) [] ⟨⟨0, 0, 0⟩, ⟨0, -1, 0⟩⟩ 0 =
      ⟨1, 1, 0⟩ ∧ (⟨1, 1, 0⟩ : Color) ≠ ⟨1, 1, 1⟩ := by
  constructor
  · rw [ray_color_miss _ _ _ _ (by decide) (by rfl)]
    have hu : Vec3.unit ⟨0, -1, 0⟩ = ⟨0, -1, 0⟩ := by
      have hls : Vec3.length_squared ⟨0, -1, 0⟩ = 1 := by
        simp only [Vec3.length_squared]
        norm_num
      rw [Vec3.unit, Vec3.length, hls, Real.sqrt_one, Vec3.divs]
      norm_num [Vec3.smul_def, Vec3.mk.injEq]
    dsimp only
    rw [hu]
    simp only [Vec3.smul_def, Vec3.add_def]
    norm_num [Vec3.mk.injEq]
  · norm_num [Vec3.mk.injEq]

/-- Witness for the amended C2: the upward ray in the empty world. -/
theorem C2_miss_background_witness :
    ray_color (fun _ => ⟨⟨0, 0, 0⟩, ⟨0, 0, 0⟩, 0⟩) [] ⟨⟨0, 0, 0⟩, ⟨0, 1, 0⟩⟩ 0 =
      (1 - 0.5 * ((Ray.mk ⟨0, 0, 0⟩ ⟨0, 1, 0⟩).dir.unit.y + 1)) • (⟨1, 1, 0⟩ : Color) +
        (0.5 * ((Ray.mk ⟨0, 0, 0⟩ ⟨0, 1, 0⟩).dir.unit.y + 1)) • (⟨0.5, 0.7, 1.0⟩ : Color) :=
  C2_miss_background (fun _ => ⟨⟨0, 0, 0⟩, ⟨0, 0, 0⟩, 0⟩) [] ⟨⟨0, 0, 0⟩, ⟨0, 1, 0⟩⟩ 0
    (by decide) (by rfl)

/-- C8 (amended): `image_height` is derived as
`ceil(image_width / aspect_ratio)` (cast to `usize`), not `round`. -/
theorem C8_image_height_is_ceil (look_from look_at vup : Vec3) (vfof : ℝ)
    ( aspect_ratio : ℝ) (image_width : ℕ)
    (focal_length aperture focus_dist : ℝ) :
    (Camera.new look_from look_at vup vfof aspect_ratio image_width
        focal_length aperture focus_dist).image_height =
      (⌈(image_width : ℝ) / aspect_ratio⌉).toNat := rfl

/-- C8 counterexample: at `image_width = 400`, `aspect_ratio = 3`, the
camera's `image_height` is `134` (ceiling of `133.33…`), while rounding
would give `133`. -/
theorem C8_image_height_not_round :
    (Camera.new ⟨13, 2, 3⟩ ⟨0, 0, 0⟩ ⟨0, 1, 0⟩ 20 3 400 1 0.1 1).image_height = 134 ∧
      (round ((400 : ℝ) / 3)).toNat = 133 := by
  constructor
  · have h0 : (Camera.new ⟨13, 2, 3⟩ ⟨0, 0, 0⟩ ⟨0, 1, 0⟩ 20 3 400 1 0.1 1).image_height =
        (⌈((400 : ℕ) : ℝ) / 3⌉).toNat := rfl
    rw [h0, show ((400 : ℕ) : ℝ) = (400 : ℝ) by norm_num]
    rw [show ⌈(400 : ℝ) / 3⌉ = (134 : ℤ) by
      rw [Int.ceil_eq_iff]
      norm_num]
    rfl
  · rw [round_eq]
    rw [show ⌊(400 : ℝ) / 3 + 1 / 2⌋ = (133 : ℤ) by
      rw [Int.floor_eq_iff]
      norm_num]
    rfl

/-- C1: when the result channel's receiver is gone, the worker's next
`send(..).unwrap()` does terminate the worker, but by a panic — not by
the silent stop that handles a disconnected command channel. -/
theorem C1_send_after_close_panics :
    workerAfterSend false = WorkerFate.panics ∧
      WorkerFate.panics ≠ workerAfterCommandDisconnect := ⟨rfl, by decide⟩

/-- Cauchy–Schwarz for the 3D dot product (via the Lagrange identity). -/
theorem Vec3.dot_sq_le (u v : Vec3) :
    u.dot v * u.dot v ≤ u.length_squared * v.length_squared := by
  simp only [Vec3.dot, Vec3.length_squared]
  nlinarith [sq_nonneg (u.x * v.y - u.y * v.x), sq_nonneg (u.x * v.z - u.z * v.x),
    sq_nonneg (u.y * v.z - u.z * v.y)]

theorem Vec3.length_squared_pos {v : Vec3} (hv : v ≠ ⟨0, 0, 0⟩) :
    0 < v.length_squared := by
  rcases (Vec3.length_squared_nonneg v).lt_or_eq with h | h
  · exact h
  · exfalso
    apply hv
    have h0 : v.length_squared = 0 := h.symm
    unfold Vec3.length_squared at h0
    have h1 : v.x * v.x = 0 := by
      linarith [mul_self_nonneg v.x, mul_self_nonneg v.y, mul_self_nonneg v.z]
    have h2 : v.y * v.y = 0 := by
      linarith [mul_self_nonneg v.x, mul_self_nonneg v.y, mul_self_nonneg v.z]
    have h3 : v.z * v.z = 0 := by
      linarith [mul_self_nonneg v.x, mul_self_nonneg v.y, mul_self_nonneg v.z]
    have hv' : v = ⟨v.x, v.y, v.z⟩ := rfl
    rw [hv', Vec3.mk.injEq]
    exact ⟨mul_self_eq_zero.mp h1, mul_self_eq_zero.mp h2, mul_self_eq_zero.mp h3⟩

theorem Vec3.eq_of_length_squared_sub_zero {u v : Vec3}
    (h : Vec3.length_squared (u - v) = 0) : u = v := by
  rw [Vec3.sub_def] at h
  unfold Vec3.length_squared at h
  dsimp only at h
  have h1 : (u.x - v.x) * (u.x - v.x) = 0 := by
    linarith [mul_self_nonneg (u.x - v.x), mul_self_nonneg (u.y - v.y),
      mul_self_nonneg (u.z - v.z)]
  have h2 : (u.y - v.y) * (u.y - v.y) = 0 := by
    linarith [mul_self_nonneg (u.x - v.x), mul_self_nonneg (u.y - v.y),
      mul_self_nonneg (u.z - v.z)]
  have h3 : (u.z - v.z) * (u.z - v.z) = 0 := by
    linarith [mul_self_nonneg (u.x - v.x), mul_self_nonneg (u.y - v.y),
      mul_self_nonneg (u.z - v.z)]
  have hu : u = ⟨u.x, u.y, u.z⟩ := rfl
  have hw : v = ⟨v.x, v.y, v.z⟩ := rfl
  rw [hu, hw, Vec3.mk.injEq]
  refine ⟨?_, ?_, ?_⟩ <;>
    [linarith [mul_self_eq_zero.mp h1]; linarith [mul_self_eq_zero.mp h2];
     linarith [mul_self_eq_zero.mp h3]]

/-- If the degenerate-quadratic equality case holds, the root `-half_b/a`
of the tangent intersection lands exactly on the given center point. -/
theorem point_root_hits_center (center : Point3) (ray : Ray)
    (ha : 0 < ray.dir.length_squared)
    (hq : ((ray.orig - center).dot ray.dir) * ((ray.orig - center).dot ray.dir) =
      ray.dir.length_squared * (ray.orig - center).length_squared) :
    ray.at (-((ray.orig - center).dot ray.dir) / ray.dir.length_squared) = center := by
  have ha' : ray.dir.length_squared ≠ 0 := ne_of_gt ha
  obtain ⟨r, hr⟩ : ∃ r : ℝ,
      r = -((ray.orig - center).dot ray.dir) / ray.dir.length_squared := ⟨_, rfl⟩
  rw [← hr]
  apply Vec3.eq_of_length_squared_sub_zero
  have hra : r * ray.dir.length_squared = -((ray.orig - center).dot ray.dir) := by
    rw [hr]
    exact div_mul_cancel₀ _ ha'
  have hexp : Vec3.length_squared (ray.at r - center) =
      (ray.orig - center).length_squared + 2 * r * ((ray.orig - center).dot ray.dir) +
        r * r * ray.dir.length_squared := by
    simp only [Ray.at, Vec3.add_def, Vec3.smul_def, Vec3.sub_def, Vec3.length_squared,
      Vec3.dot]
    ring
  rw [hexp]
  have key : ray.dir.length_squared *
      ((ray.orig - center).length_squared + 2 * r * ((ray.orig - center).dot ray.dir) +
        r * r * ray.dir.length_squared) = 0 := by
    have expand : ray.dir.length_squared *
        ((ray.orig - center).length_squared + 2 * r * ((ray.orig - center).dot ray.dir) +
          r * r * ray.dir.length_squared) =
        ray.dir.length_squared * (ray.orig - center).length_squared +
          2 * (r * ray.dir.length_squared) * ((ray.orig - center).dot ray.dir) +
          (r * ray.dir.length_squared) * (r * ray.dir.length_squared) := by
      ring
    rw [expand, hra]
    linear_combination (-1 : ℝ) * hq
  exact (mul_eq_zero.mp key).resolve_left ha'

/-- C9 (amended): a radius-`0` sphere accepts a hit only in the
degenerate tangent case, and then the hit point is the center itself (so
for rays with nonzero direction whose line misses the center, the
intersection returns `none`; the outward normal of the degenerate hit
divides the zero vector by the zero radius). -/
theorem C9_point_sphere_hits_only_center (mat : Material) (center : Point3) (ray : Ray)
    (tmin : ℝ) (tmax : WithTop ℝ) (h : HitRecord) (hdir : ray.dir ≠ ⟨0, 0, 0⟩)
    (hh : Sphere.hit ⟨center, 0, mat⟩ ray tmin tmax = some h) :
    h.p = center := by
  have ha : 0 < ray.dir.length_squared := Vec3.length_squared_pos hdir
  have hcs := Vec3.dot_sq_le (ray.orig - center) ray.dir
  have hdisc_le : Sphere.disc ⟨center, 0, mat⟩ ray ≤ 0 := by
    unfold Sphere.disc
    dsimp only
    nlinarith [hcs]
  rw [Sphere.hit_eq] at hh
  split_ifs at hh with h1 h2 h3
  all_goals first
    | exact Option.noConfusion hh
    | (rw [Option.some.injEq] at hh
       have hdisc0 : Sphere.disc ⟨center, 0, mat⟩ ray = 0 :=
         le_antisymm hdisc_le (not_lt.mp h1)
       have hsq0 : Real.sqrt (Sphere.disc ⟨center, 0, mat⟩ ray) = 0 := by
         rw [hdisc0, Real.sqrt_zero]
       have hq : ((ray.orig - center).dot ray.dir) * ((ray.orig - center).dot ray.dir) =
           ray.dir.length_squared * (ray.orig - center).length_squared := by
         have hd := hdisc0
         unfold Sphere.disc at hd
         dsimp only at hd
         nlinarith [hd]
       rw [← hh, Sphere.mkRec_p]
       first
         | (rw [show Sphere.root2 ⟨center, 0, mat⟩ ray =
               (-((ray.orig - center).dot ray.dir) +
                 Real.sqrt (Sphere.disc ⟨center, 0, mat⟩ ray)) /
                 ray.dir.length_squared from rfl, hsq0, add_zero]
            exact point_root_hits_center center ray ha hq)
         | (rw [show Sphere.root1 ⟨center, 0, mat⟩ ray =
               (-((ray.orig - center).dot ray.dir) -
                 Real.sqrt (Sphere.disc ⟨center, 0, mat⟩ ray)) /
                 ray.dir.length_squared from rfl, hsq0, sub_zero]
            exact point_root_hits_center center ray ha hq))

/-- C9 counterexample: the ray from the origin straight through the
center of the radius-`0` sphere at `(0,0,-1)` is accepted (discriminant
exactly `0`), so the point sphere is not unhittable. -/
theorem C9_point_sphere_hit_exists :
    Sphere.hit ⟨⟨0, 0, -1⟩, 0, Material.Lambertian ⟨0, 0, 0⟩⟩
        ⟨⟨0, 0, 0⟩, ⟨0, 0, -1⟩⟩ 0 ((2 : ℝ) : WithTop ℝ) =
      some ⟨⟨0, 0, -1⟩, ⟨0, 0, 0⟩, 1, Face.Front, Material.Lambertian ⟨0, 0, 0⟩⟩ ∧
    Sphere.hit ⟨⟨0, 0, -1⟩, 0, Material.Lambertian ⟨0, 0, 0⟩⟩
        ⟨⟨0, 0, 0⟩, ⟨0, 0, -1⟩⟩ 0 ((2 : ℝ) : WithTop ℝ) ≠ none := by
  have he := hit_point_eval (Material.Lambertian ⟨0, 0, 0⟩) 0 ((2 : ℝ) : WithTop ℝ)
    (by norm_num) (by exact_mod_cast (by norm_num : (1 : ℝ) ≤ 2))
  exact ⟨he, by rw [he]; simp⟩

/-- Witness for the amended C9: the through-center hit's point is the
center `(0,0,-1)`. -/
theorem C9_point_sphere_hits_only_center_witness :
    (HitRecord.mk ⟨0, 0, -1⟩ ⟨0, 0, 0⟩ 1 Face.Front (Material.Lambertian ⟨0, 0, 0⟩)).p =
      (⟨0, 0, -1⟩ : Vec3) :=
  C9_point_sphere_hits_only_center (Material.Lambertian ⟨0, 0, 0⟩) ⟨0, 0, -1⟩
    ⟨⟨0, 0, 0⟩, ⟨0, 0, -1⟩⟩ 0 ((2 : ℝ) : WithTop ℝ) _
    (by norm_num [Vec3.mk.injEq])
    (hit_point_eval (Material.Lambertian ⟨0, 0, 0⟩) 0 ((2 : ℝ) : WithTop ℝ)
      (by norm_num) (by exact_mod_cast (by norm_num : (1 : ℝ) ≤ 2)))

end RT
